import Mathlib

/-!
# Verification of the WhatsApp-lite chat engine (`src/Whatsapplite.py`)

Shallow embedding of the socket-event handlers of the single-file
Flask-SocketIO chat server, and proofs about the claims of its
natural-language specification.

Modelling conventions:
* Message identifiers (`msg_id`, a server-generated opaque hex string in the
  source) are modelled as `Nat`, allocated from a counter; connection ids
  (`request.sid`) are `Nat`; room names, author names and emojis are `String`.
* `datetime.utcnow()` is modelled by a logical clock in the server state that
  advances by one on every dispatched event; a handler reading the current
  time reads the clock value.
* Python `dict`s (`online_users`, `sid_to_user`, a message's `reactions`) are
  insertion-ordered association lists; Python `set`s (`online_users[u]`) are
  duplicate-free lists; assigning `d[k] = v` updates the existing entry in
  place or appends a new one.
* A missing payload key (`data.get('x')` returning `None`) is `Option.none`;
  Python truthiness of a string (`if not name`) is `falsyS`, true for both a
  missing key and an empty string.
* The database session is modelled as the in-memory message list, in insertion
  (creation) order; `query.filter_by(msg_id=...).first()` is `List.find?` and
  the in-place mutation of the found row replaces the first matching entry.
* `socketio.emit`/`emit` calls are collected into a list of `Broadcast` values
  returned by each handler, in emission order; room-membership routing is not
  modelled (no claim depends on the recipient set, only on which events are
  emitted with which payloads).
* The token → user database lookup inside `on_auth` is abstracted by the
  handler's `resolved : Option String` argument: `some u` models a token whose
  `Device` row resolves to user `u`, `none` models a missing or unknown token.
-/

namespace Whatsapplite

/-- A row of the `messages` table (class `Message` in the source). -/
structure Message where
  msg_id : Nat
  room : String
  author : String
  text : Option String
  mtype : String
  file : Option String
  ts : Nat
  edited : Bool
  deleted : Bool
  reactions : List (String × List String)
  pinned : Bool
  read_by : List String
deriving DecidableEq, Repr

/-- The payload produced by `message_to_dict`. -/
structure MsgDict where
  id : Nat
  room : String
  name : String
  msg : Option String
  type : String
  file : Option String
  ts : Nat
  edited : Bool
  deleted : Bool
  reactions : List (String × List String)
  pinned : Bool
  read_by : List String
deriving DecidableEq, Repr

/-- Function `message_to_dict(m)` (source lines 107–121).  `m.reactions or {}` and
`m.read_by or []` coalesce a falsy value to the empty container; in the model
the fields are already containers, and an empty list coalesces to itself, so
the fields are passed through. -/
def message_to_dict (m : Message) : MsgDict :=
  { id := m.msg_id
    room := m.room
    name := m.author
    msg := m.text
    type := m.mtype
    file := m.file
    ts := m.ts
    edited := m.edited
    deleted := m.deleted
    reactions := m.reactions
    pinned := m.pinned
    read_by := m.read_by }

/-- Events emitted to clients by the handlers, in emission order. -/
inductive Broadcast where
  | presence (user : String) (online : Bool)
  | online_update (users : List String)
  | history (toSid : Nat) (msgs : List MsgDict)
  | msg_evt (room : String) (payload : MsgDict)
  | sent (toSid : Nat) (id : Nat)
  | typing_evt (room : String) (name : String)
  | delivered (room : Option String) (id : Option Nat)
  | read_evt (room : String) (id : Nat) (name : String)
  | read_update (room : Option String) (payload : List MsgDict)
  | msg_update (room : Option String) (payload : MsgDict)
deriving DecidableEq, Repr

/-- The server's mutable state: the `messages` table (in creation order), the
in-memory presence maps (source lines 79–80), the id allocator and the clock. -/
structure ServerState where
  messages : List Message
  online_users : List (String × List Nat)
  sid_to_user : List (Nat × String)
  nextId : Nat
  clock : Nat
deriving DecidableEq, Repr

def initialState : ServerState :=
  { messages := [], online_users := [], sid_to_user := [], nextId := 0, clock := 0 }

/-! ## Dictionary / set helpers (Python `dict` and `set` semantics) -/

/-- Python truthiness of an optional string: `not x` for a missing key or an
empty string. -/
def falsyS : Option String → Bool
  | none => true
  | some s => s.isEmpty

/-- Lookup `d[k]`, returning `none` when absent (`dict.get`). -/
def dictGet {β : Type} (d : List (String × β)) (k : String) : Option β :=
  (d.find? (fun p => p.1 == k)).map Prod.snd

/-- Assignment `d[k] = v`: update the entry in place if the key is present (keeping its
position), otherwise append the new entry (Python dict insertion order). -/
def dictSet {β : Type} (d : List (String × β)) (k : String) (v : β) :
    List (String × β) :=
  match d with
  | [] => [(k, v)]
  | (k', v') :: t => if k' == k then (k, v) :: t else (k', v') :: dictSet t k v

/-- Remove a key (`dict.pop(k, None)`). -/
def dictPop {β : Type} (d : List (String × β)) (k : String) : List (String × β) :=
  d.filter (fun p => ¬ p.1 == k)

/-- Lookup into `sid_to_user` (keys are `Nat` sids). -/
def sidGet (d : List (Nat × String)) (k : Nat) : Option String :=
  (d.find? (fun p => p.1 == k)).map Prod.snd

/-- Assignment `sid_to_user[sid] = user`. -/
def sidSet (d : List (Nat × String)) (k : Nat) (v : String) : List (Nat × String) :=
  match d with
  | [] => [(k, v)]
  | (k', v') :: t => if k' == k then (k, v) :: t else (k', v') :: sidSet t k v

/-- Operation `sid_to_user.pop(sid, None)`: the removed value and the shrunken dict. -/
def sidPop (d : List (Nat × String)) (k : Nat) :
    Option String × List (Nat × String) :=
  (sidGet d k, d.filter (fun p => ¬ p.1 == k))

/-- Python `set.add`: append when absent. -/
def setAdd (s : List Nat) (x : Nat) : List Nat :=
  if x ∈ s then s else s ++ [x]

/-! ## Message helpers -/

/-- Constructor `mk_msg_db` (source lines 89–105): allocate an id, timestamp at call time,
empty reactions and read set. -/
def mk_msg_db (st : ServerState) (author : String) (text : Option String)
    (mtype : String) (file_url : Option String) (room : String) : Message :=
  { msg_id := st.nextId
    room := room
    author := author
    text := text
    mtype := mtype
    file := file_url
    ts := st.clock
    edited := false
    deleted := false
    reactions := []
    pinned := false
    read_by := [] }

/-- Query `sess.query(Message).filter_by(msg_id=i).first()`; a missing id in the
payload (`filter_by(msg_id=None)`) matches no row. -/
def findMsg (msgs : List Message) (i : Option Nat) : Option Message :=
  i.bind (fun n => msgs.find? (fun m => m.msg_id == n))

/-- Mutate the first row matching `msg_id = i` in place. -/
def updateFirst (msgs : List Message) (i : Nat) (f : Message → Message) :
    List Message :=
  match msgs with
  | [] => []
  | m :: t => if m.msg_id == i then f m :: t else m :: updateFirst t i f

/-- The room-filtered query `filter_by(room=room)`, in table insertion order. -/
def roomMsgs (msgs : List Message) (room : String) : List Message :=
  msgs.filter (fun m => m.room == room)

/-- Clause `order_by(Message.ts.asc())`: a stable ascending sort on `ts`. -/
def sortByTs (msgs : List Message) : List Message :=
  msgs.insertionSort (fun a b => a.ts ≤ b.ts)

/-- The history query of `on_join` (source line 513): room messages ordered by
ascending timestamp, `limit(500)` keeping the first 500 of that order. -/
def historyQuery (msgs : List Message) (room : String) : List Message :=
  (sortByTs (roomMsgs msgs room)).take 500

/-! ## Socket event handlers

Each handler takes the pre-state plus the event payload and returns the
post-state together with the list of emitted broadcasts.  The logical clock
advance (one tick per dispatched event) is applied by `step`, after the
handler body, so a handler reading the time reads `st.clock`. -/

/-- Handler `on_auth` (source lines 491–506).  `resolved` abstracts the
`Device`-table token lookup: `none` covers both a missing token and an
unknown token (both return without effect). -/
def on_auth (st : ServerState) (sid : Nat) (resolved : Option String) :
    ServerState × List Broadcast :=
  match resolved with
  | none => (st, [])
  | some user =>
      let sids := (dictGet st.online_users user).getD []
      let st' := { st with
        sid_to_user := sidSet st.sid_to_user sid user
        online_users := dictSet st.online_users user (setAdd sids sid) }
      (st', [Broadcast.presence user true,
             Broadcast.online_update (st'.online_users.map Prod.fst)])

/-- Handler `on_join` (source lines 508–514): default room "main", reply `history`
to the joining connection only. -/
def on_join (st : ServerState) (sid : Nat) (roomOpt : Option String) :
    ServerState × List Broadcast :=
  let room := roomOpt.getD "main"
  (st, [Broadcast.history sid ((historyQuery st.messages room).map message_to_dict)])

/-- Handler `on_msg` (source lines 516–522): missing fields default to room "main",
name "Anon", empty text; the message is stored and broadcast. -/
def on_msg (st : ServerState) (sid : Nat)
    (roomOpt nameOpt textOpt : Option String) :
    ServerState × List Broadcast :=
  let room := roomOpt.getD "main"
  let name := nameOpt.getD "Anon"
  let text := textOpt.getD ""
  let msg := mk_msg_db st name (some text) "text" none room
  let st' := { st with messages := st.messages ++ [msg], nextId := st.nextId + 1 }
  (st', [Broadcast.msg_evt room (message_to_dict msg),
         Broadcast.sent sid msg.msg_id])

/-- Handler `on_typing` (source lines 524–527). -/
def on_typing (st : ServerState) (roomOpt nameOpt : Option String) :
    ServerState × List Broadcast :=
  (st, [Broadcast.typing_evt (roomOpt.getD "main") (nameOpt.getD "Anon")])

/-- Handler `on_delivered` (source lines 529–531). -/
def on_delivered (st : ServerState) (roomOpt : Option String) (idOpt : Option Nat) :
    ServerState × List Broadcast :=
  (st, [Broadcast.delivered roomOpt idOpt])

/-- The read-receipt mutation of `on_read`: append `name` when absent. -/
def markRead (name : String) (m : Message) : Message :=
  if name ∈ m.read_by then m else { m with read_by := m.read_by ++ [name] }

/-- Handler `on_read` (source lines 533–543).  Falsy id/room/name drop the event;
otherwise the read set is updated when the row exists, and the `read` event
is emitted **unconditionally** (the emit of line 543 is outside `if m:`). -/
def on_read (st : ServerState) (idOpt : Option Nat)
    (roomOpt nameOpt : Option String) : ServerState × List Broadcast :=
  match idOpt, roomOpt, nameOpt with
  | some msg_id, some room, some name =>
      if room.isEmpty || name.isEmpty then (st, [])
      else
        let st' :=
          match findMsg st.messages (some msg_id) with
          | some _ => { st with messages := updateFirst st.messages msg_id (markRead name) }
          | none => st
        (st', [Broadcast.read_evt room msg_id name])
  | _, _, _ => (st, [])

/-- The per-row condition of the `on_read_all` loop: the row is in the
requested room, the name is truthy, and the name is not yet in the read set
(`if name and name not in arr`). -/
def readAllHits (roomOpt nameOpt : Option String) (m : Message) : Bool :=
  roomOpt == some m.room && !(falsyS nameOpt) && !(m.read_by.contains (nameOpt.getD ""))

/-- The per-row effect of the `on_read_all` loop: append the name when the
row is hit, otherwise leave the row alone. -/
def readAllMark (roomOpt nameOpt : Option String) (m : Message) : Message :=
  if readAllHits roomOpt nameOpt m
  then { m with read_by := m.read_by ++ [nameOpt.getD ""] } else m

/-- Handler `on_read_all` (source lines 545–555): no field validation; every room
message missing `name` gets it appended; `read_update` carries the **entire**
room message list and is emitted only when something changed.  A falsy `name`
never changes a row (`if name and name not in arr`). -/
def on_read_all (st : ServerState) (roomOpt nameOpt : Option String) :
    ServerState × List Broadcast :=
  let changed := st.messages.any (readAllHits roomOpt nameOpt)
  let msgs' := st.messages.map (readAllMark roomOpt nameOpt)
  let st' := { st with messages := msgs' }
  if changed then
    (st', [Broadcast.read_update roomOpt
            ((roomMsgs msgs' (roomOpt.getD "")).map message_to_dict)])
  else (st', [])

/-- The soft-delete mutation of `on_delete`: tombstone the body, flag deleted. -/
def softDelete (m : Message) : Message :=
  { m with deleted := true, text := some "(message deleted)" }

/-- Handler `on_delete` (source lines 557–564): silent no-op when the id is unknown. -/
def on_delete (st : ServerState) (roomOpt : Option String) (idOpt : Option Nat) :
    ServerState × List Broadcast :=
  match findMsg st.messages idOpt with
  | none => (st, [])
  | some m =>
      let m' := softDelete m
      ({ st with messages := updateFirst st.messages m.msg_id softDelete },
       [Broadcast.msg_update roomOpt (message_to_dict m')])

/-- The edit mutation of `on_edit`: body replaced (possibly by a missing
value), `edited` set, timestamp refreshed to the edit time. -/
def editMsg (newText : Option String) (now : Nat) (m : Message) : Message :=
  { m with text := newText, edited := true, ts := now }

/-- Handler `on_edit` (source lines 566–573): no validation of the new text; silent
no-op when the id is unknown. -/
def on_edit (st : ServerState) (roomOpt : Option String) (idOpt : Option Nat)
    (textOpt : Option String) : ServerState × List Broadcast :=
  match findMsg st.messages idOpt with
  | none => (st, [])
  | some m =>
      let m' := editMsg textOpt st.clock m
      ({ st with messages := updateFirst st.messages m.msg_id (editMsg textOpt st.clock) },
       [Broadcast.msg_update roomOpt (message_to_dict m')])

/-- The reaction-toggle mutation of `on_react`: remove `name` from the
emoji's list when present, append it when absent; the key is (re)assigned
either way (`rx[emoji] = arr`). -/
def toggleReaction (emoji name : String) (m : Message) : Message :=
  let arr := (dictGet m.reactions emoji).getD []
  let arr' := if name ∈ arr then arr.erase name else arr ++ [name]
  { m with reactions := dictSet m.reactions emoji arr' }

/-- Handler `on_react` (source lines 575–590): falsy emoji or name drops the event;
unknown id is a silent no-op. -/
def on_react (st : ServerState) (roomOpt : Option String) (idOpt : Option Nat)
    (emojiOpt nameOpt : Option String) : ServerState × List Broadcast :=
  if falsyS emojiOpt || falsyS nameOpt then (st, [])
  else
    let emoji := emojiOpt.getD ""
    let name := nameOpt.getD ""
    match findMsg st.messages idOpt with
    | none => (st, [])
    | some m =>
        let m' := toggleReaction emoji name m
        ({ st with messages := updateFirst st.messages m.msg_id (toggleReaction emoji name) },
         [Broadcast.msg_update roomOpt (message_to_dict m')])

/-- The pin mutation of `on_pin`: `bool(d.get('pin'))`, so a missing flag
pins to `false`. -/
def setPin (pin : Bool) (m : Message) : Message :=
  { m with pinned := pin }

/-- Handler `on_pin` (source lines 592–599). -/
def on_pin (st : ServerState) (roomOpt : Option String) (idOpt : Option Nat)
    (pinOpt : Option Bool) : ServerState × List Broadcast :=
  let pin := pinOpt.getD false
  match findMsg st.messages idOpt with
  | none => (st, [])
  | some m =>
      let m' := setPin pin m
      ({ st with messages := updateFirst st.messages m.msg_id (setPin pin) },
       [Broadcast.msg_update roomOpt (message_to_dict m')])

/-- Handler `on_disconnect` (source lines 601–613): pop the sid's user; when the user
exists, discard the sid from their set; the `presence offline` event is
emitted only when the set was non-empty (`if s:`) and becomes empty, in which
case the user's key is popped; `online_update` is emitted whenever the sid
was authenticated. -/
def on_disconnect (st : ServerState) (sid : Nat) : ServerState × List Broadcast :=
  match sidPop st.sid_to_user sid with
  | (none, d') => ({ st with sid_to_user := d' }, [])
  | (some user, d') =>
      match dictGet st.online_users user with
      | none =>
          let st' := { st with sid_to_user := d' }
          (st', [Broadcast.online_update (st'.online_users.map Prod.fst)])
      | some s =>
          if s.isEmpty then
            let st' := { st with sid_to_user := d' }
            (st', [Broadcast.online_update (st'.online_users.map Prod.fst)])
          else
            let s' := s.erase sid
            if s'.isEmpty then
              let st' := { st with
                sid_to_user := d'
                online_users := dictPop st.online_users user }
              (st', [Broadcast.presence user false,
                     Broadcast.online_update (st'.online_users.map Prod.fst)])
            else
              let st' := { st with
                sid_to_user := d'
                online_users := dictSet st.online_users user s' }
              (st', [Broadcast.online_update (st'.online_users.map Prod.fst)])

/-! ## Event dispatch -/

/-- An inbound client event with its (possibly incomplete) payload. -/
inductive Event where
  | auth (sid : Nat) (resolved : Option String)
  | join (sid : Nat) (room : Option String)
  | msg (sid : Nat) (room name text : Option String)
  | typing (room name : Option String)
  | delivered (room : Option String) (id : Option Nat)
  | read (id : Option Nat) (room name : Option String)
  | read_all (room name : Option String)
  | delete (room : Option String) (id : Option Nat)
  | edit (room : Option String) (id : Option Nat) (text : Option String)
  | react (room : Option String) (id : Option Nat) (emoji name : Option String)
  | pin (room : Option String) (id : Option Nat) (pin : Option Bool)
  | disconnect (sid : Nat)
deriving DecidableEq, Repr

/-- Dispatch one event, then advance the logical clock by one tick. -/
def step (st : ServerState) (e : Event) : ServerState × List Broadcast :=
  let r :=
    match e with
    | .auth sid resolved => on_auth st sid resolved
    | .join sid room => on_join st sid room
    | .msg sid room name text => on_msg st sid room name text
    | .typing room name => on_typing st room name
    | .delivered room id => on_delivered st room id
    | .read id room name => on_read st id room name
    | .read_all room name => on_read_all st room name
    | .delete room id => on_delete st room id
    | .edit room id text => on_edit st room id text
    | .react room id emoji name => on_react st room id emoji name
    | .pin room id pin => on_pin st room id pin
    | .disconnect sid => on_disconnect st sid
  ({ r.1 with clock := r.1.clock + 1 }, r.2)

/-- Run a sequence of events from a state. -/
def runFrom (st : ServerState) : List Event → ServerState
  | [] => st
  | e :: es => runFrom (step st e).1 es

/-- The state reached from the initial (empty) server state. -/
def run (es : List Event) : ServerState :=
  runFrom initialState es

/-! ## Derived definitions used by the claims -/

/-- The history reply described by the specification's words: the room's
stored messages in creation (insertion) order, capped to the most recent 500.
This follows the spec, not the source, and is compared against
`historyQuery`, which follows the source. -/
def specHistory (msgs : List Message) (room : String) : List Message :=
  let rs := roomMsgs msgs room
  rs.drop (rs.length - 500)

/-- The set of usernames recorded under an emoji in a message's reaction map
(the list `rx.get(emoji, [])` of the source). -/
def reactionSet (m : Message) (emoji : String) : List String :=
  (dictGet m.reactions emoji).getD []

/-- The emoji keys of a message's reaction map. -/
def reactionKeys (m : Message) : List String :=
  m.reactions.map Prod.fst

/-- Whether an event is an `edit_msg` event (the one event that refreshes a
stored message's timestamp). -/
def Event.isEdit : Event → Bool
  | .edit _ _ _ => true
  | _ => false

/-- The room/timestamp view of the message table, in insertion order. -/
def mview (st : ServerState) : List (String × Nat) :=
  st.messages.map (fun m => (m.room, m.ts))

/-- Timestamp discipline: stored timestamps are strictly increasing in
insertion order and strictly below the clock. -/
def ClockInv (st : ServerState) : Prop :=
  (mview st).Pairwise (fun a b => a.2 < b.2) ∧ ∀ p ∈ mview st, p.2 < st.clock

/-- Presence-map invariant: every username key of `online_users` carries a
non-empty set of connection ids. -/
def OnlineInv (st : ServerState) : Prop :=
  ∀ p ∈ st.online_users, p.2 ≠ []

/-- A per-row transformation that keeps the row's identity and never discards
an existing emoji key of its reaction map. -/
def KeepsKeys (f : Message → Message) : Prop :=
  ∀ m, (f m).msg_id = m.msg_id ∧ ∀ e ∈ reactionKeys m, e ∈ reactionKeys (f m)

/-- A concrete stored message (with reactions and a read receipt) used to
instantiate the general theorems on closed inputs. -/
def wMsg : Message :=
  { msg_id := 0, room := "r", author := "a", text := some "x", mtype := "text", file := none, ts := 0, edited := false, deleted := false, reactions := [("e", ["u", "v"])], pinned := false, read_by := ["w"] }

/-- A concrete one-message server state used to instantiate the general
theorems on closed inputs. -/
def wState : ServerState :=
  { messages := [wMsg], online_users := [], sid_to_user := [], nextId := 1, clock := 1 }

/-- A stored message whose emoji "e" carries a single reacting username. -/
def wMsg1 : Message :=
  { msg_id := 0, room := "r", author := "a", text := some "x", mtype := "text", file := none, ts := 0, edited := false, deleted := false, reactions := [("e", ["u"])], pinned := false, read_by := [] }

/-- A one-message server state holding `wMsg1`. -/
def wState1 : ServerState :=
  { messages := [wMsg1], online_users := [], sid_to_user := [], nextId := 1, clock := 1 }

/-! ## Helper lemmas: dictionaries, sets, row updates -/

theorem dictGet_dictSet_self {β : Type} (d : List (String × β)) (k : String) (v : β) :
    dictGet (dictSet d k v) k = some v := by
  induction d with
  | nil => simp [dictGet, dictSet]
  | cons p t ih =>
      obtain ⟨k', v'⟩ := p
      by_cases h : k' = k
      · simp [dictGet, dictSet, h]
      · simpa [dictGet, dictSet, h] using ih

theorem dictGet_dictPop_self {β : Type} (d : List (String × β)) (k : String) :
    dictGet (dictPop d k) k = none := by
  induction d with
  | nil => simp [dictGet, dictPop]
  | cons p t ih =>
      obtain ⟨k', v'⟩ := p
      by_cases h : k' = k
      · simpa [dictGet, dictPop, h] using ih
      · simpa [dictGet, dictPop, h] using ih

theorem mem_dictSet {β : Type} {d : List (String × β)} {k : String} {v : β}
    {p : String × β} (hp : p ∈ dictSet d k v) : p = (k, v) ∨ p ∈ d := by
  induction d with
  | nil => simpa [dictSet] using hp
  | cons q t ih =>
      obtain ⟨k', v'⟩ := q
      by_cases h : k' = k
      · rcases (by simpa [dictSet, h] using hp) with h' | h'
        · exact Or.inl h'
        · exact Or.inr (List.mem_cons_of_mem _ h')
      · rcases (by simpa [dictSet, h] using hp) with h' | h'
        · exact Or.inr (by simp [h'])
        · rcases ih h' with h'' | h''
          · exact Or.inl h''
          · exact Or.inr (List.mem_cons_of_mem _ h'')

theorem mem_dictPop {β : Type} {d : List (String × β)} {k : String}
    {p : String × β} (hp : p ∈ dictPop d k) : p ∈ d :=
  List.mem_of_mem_filter hp

theorem setAdd_ne_nil (s : List Nat) (x : Nat) : setAdd s x ≠ [] := by
  unfold setAdd
  split
  · rename_i h
    exact List.ne_nil_of_mem h
  · simp

theorem mem_setAdd_self (s : List Nat) (x : Nat) : x ∈ setAdd s x := by
  unfold setAdd
  split
  · assumption
  · simp

/-- First-match preservation: rows whose id differs from the updated one keep
their places and values. -/
theorem mem_updateFirst_of_ne {l : List Message} {i : Nat} {f : Message → Message}
    {m : Message} (hm : m ∈ l) (hne : m.msg_id ≠ i) : m ∈ updateFirst l i f := by
  induction l with
  | nil => cases hm
  | cons a t ih =>
      unfold updateFirst
      rcases List.mem_cons.mp hm with rfl | hmem
      · simp [beq_eq_false_iff_ne.mpr hne]
      · split
        · exact List.mem_cons_of_mem _ hmem
        · exact List.mem_cons_of_mem _ (ih hmem)

theorem find?_updateFirst_self (l : List Message) (i : Nat) (f : Message → Message)
    (hf : ∀ m, (f m).msg_id = m.msg_id) :
    (updateFirst l i f).find? (fun m => m.msg_id == i) =
      (l.find? (fun m => m.msg_id == i)).map f := by
  induction l with
  | nil => simp [updateFirst]
  | cons a t ih =>
      by_cases h : a.msg_id = i
      · simp [updateFirst, List.find?, h, hf a]
      · simp only [updateFirst, beq_iff_eq, h, if_false, List.find?, hf a,
          beq_eq_false_iff_ne.mpr h]
        simpa [List.find?, beq_eq_false_iff_ne.mpr h] using ih

theorem find?_updateFirst_ne (l : List Message) (i j : Nat) (f : Message → Message)
    (hf : ∀ m, (f m).msg_id = m.msg_id) (hij : i ≠ j) :
    (updateFirst l j f).find? (fun m => m.msg_id == i) =
      l.find? (fun m => m.msg_id == i) := by
  induction l with
  | nil => simp [updateFirst]
  | cons a t ih =>
      have hji : (j == i) = false := beq_eq_false_iff_ne.mpr (Ne.symm hij)
      by_cases h : a.msg_id = j
      · have hai : a.msg_id ≠ i := by simpa [h] using (Ne.symm hij)
        have hfi : (f a).msg_id ≠ i := by simpa [hf a, h] using (Ne.symm hij)
        simp [updateFirst, List.find?, h, beq_eq_false_iff_ne.mpr hai,
          beq_eq_false_iff_ne.mpr hfi, hji]
      · by_cases hai : a.msg_id = i
        · simp [updateFirst, List.find?, beq_eq_false_iff_ne.mpr h, hai, hij]
        · simpa [updateFirst, List.find?, beq_eq_false_iff_ne.mpr h,
            beq_eq_false_iff_ne.mpr hai] using ih

theorem mview_updateFirst (l : List Message) (j : Nat) (f : Message → Message)
    (hf : ∀ m, (f m).room = m.room ∧ (f m).ts = m.ts) :
    (updateFirst l j f).map (fun m => (m.room, m.ts)) =
      l.map (fun m => (m.room, m.ts)) := by
  induction l with
  | nil => rfl
  | cons a t ih =>
      unfold updateFirst
      split
      · simp [(hf a).1, (hf a).2]
      · simpa using ih

theorem mview_map (l : List Message) (g : Message → Message)
    (hg : ∀ m, (g m).room = m.room ∧ (g m).ts = m.ts) :
    (l.map g).map (fun m => (m.room, m.ts)) = l.map (fun m => (m.room, m.ts)) := by
  rw [List.map_map]
  exact List.map_congr_left (fun m _ => by simp [(hg m).1, (hg m).2])

/-! ## Row transformations: frame facts -/

theorem markRead_frame (n : String) (m : Message) :
    (markRead n m).msg_id = m.msg_id ∧ (markRead n m).room = m.room ∧
    (markRead n m).ts = m.ts ∧ (markRead n m).reactions = m.reactions := by
  unfold markRead; split <;> exact ⟨rfl, rfl, rfl, rfl⟩

theorem softDelete_frame (m : Message) :
    (softDelete m).msg_id = m.msg_id ∧ (softDelete m).room = m.room ∧
    (softDelete m).ts = m.ts ∧ (softDelete m).reactions = m.reactions :=
  ⟨rfl, rfl, rfl, rfl⟩

theorem editMsg_frame (t : Option String) (now : Nat) (m : Message) :
    (editMsg t now m).msg_id = m.msg_id ∧ (editMsg t now m).room = m.room ∧
    (editMsg t now m).reactions = m.reactions :=
  ⟨rfl, rfl, rfl⟩

theorem setPin_frame (b : Bool) (m : Message) :
    (setPin b m).msg_id = m.msg_id ∧ (setPin b m).room = m.room ∧
    (setPin b m).ts = m.ts ∧ (setPin b m).reactions = m.reactions :=
  ⟨rfl, rfl, rfl, rfl⟩

theorem readAllMark_frame (r n : Option String) (m : Message) :
    (readAllMark r n m).msg_id = m.msg_id ∧ (readAllMark r n m).room = m.room ∧
    (readAllMark r n m).ts = m.ts ∧ (readAllMark r n m).reactions = m.reactions := by
  unfold readAllMark; split <;> exact ⟨rfl, rfl, rfl, rfl⟩

theorem toggleReaction_frame (e u : String) (m : Message) :
    (toggleReaction e u m).msg_id = m.msg_id ∧ (toggleReaction e u m).room = m.room ∧
    (toggleReaction e u m).ts = m.ts :=
  ⟨rfl, rfl, rfl⟩

theorem mem_keys_dictSet {β : Type} (d : List (String × β)) (k e : String) (v : β)
    (he : e ∈ d.map Prod.fst) : e ∈ (dictSet d k v).map Prod.fst := by
  induction d with
  | nil => simp at he
  | cons p t ih =>
      obtain ⟨k', v'⟩ := p
      rw [List.map_cons] at he
      rcases List.mem_cons.mp he with h | h
      · by_cases hk : k' = k
        · simp [dictSet, hk, h.trans hk]
        · simp [dictSet, hk, h]
      · by_cases hk : k' = k
        · simp only [dictSet, hk, beq_self_eq_true, if_true, List.map_cons,
            List.mem_cons]
          exact Or.inr h
        · have hmem := ih h
          simp only [dictSet, List.map_cons, List.mem_cons]
          rw [if_neg (by simpa using hk)]
          simp only [List.map_cons, List.mem_cons]
          exact Or.inr hmem

theorem keepsKeys_markRead (n : String) : KeepsKeys (markRead n) := by
  intro m
  refine ⟨(markRead_frame n m).1, ?_⟩
  intro e he
  unfold reactionKeys at he ⊢
  rw [(markRead_frame n m).2.2.2]
  exact he

theorem keepsKeys_softDelete : KeepsKeys softDelete := by
  intro m
  exact ⟨rfl, fun e he => he⟩

theorem keepsKeys_editMsg (t : Option String) (now : Nat) :
    KeepsKeys (editMsg t now) := by
  intro m
  exact ⟨rfl, fun e he => he⟩

theorem keepsKeys_setPin (b : Bool) : KeepsKeys (setPin b) := by
  intro m
  exact ⟨rfl, fun e he => he⟩

theorem keepsKeys_readAllMark (r n : Option String) : KeepsKeys (readAllMark r n) := by
  intro m
  refine ⟨(readAllMark_frame r n m).1, ?_⟩
  intro e he
  unfold reactionKeys at he ⊢
  rw [(readAllMark_frame r n m).2.2.2]
  exact he

theorem keepsKeys_toggleReaction (em u : String) : KeepsKeys (toggleReaction em u) := by
  intro m
  refine ⟨rfl, ?_⟩
  intro e he
  unfold reactionKeys at he ⊢
  exact mem_keys_dictSet m.reactions em e _ he

/-! ## Handler shape lemmas

For every handler: the clock is untouched, and the `messages` and
`online_users` fields change only in the listed shapes. -/

theorem on_auth_state (st : ServerState) (sid : Nat) (res : Option String) :
    (on_auth st sid res).1.messages = st.messages ∧
    (on_auth st sid res).1.clock = st.clock ∧
    ((on_auth st sid res).1.online_users = st.online_users ∨
      ∃ u sids, (on_auth st sid res).1.online_users =
        dictSet st.online_users u (setAdd sids sid)) := by
  cases res with
  | none => exact ⟨rfl, rfl, Or.inl rfl⟩
  | some u => exact ⟨rfl, rfl, Or.inr ⟨u, _, rfl⟩⟩

theorem on_join_state (st : ServerState) (sid : Nat) (r : Option String) :
    (on_join st sid r).1 = st := rfl

theorem on_msg_state (st : ServerState) (sid : Nat) (r n t : Option String) :
    (on_msg st sid r n t).1.messages =
      st.messages ++ [mk_msg_db st (n.getD "Anon") (some (t.getD "")) "text" none (r.getD "main")] ∧
    (on_msg st sid r n t).1.clock = st.clock ∧
    (on_msg st sid r n t).1.online_users = st.online_users :=
  ⟨rfl, rfl, rfl⟩

theorem on_typing_state (st : ServerState) (r n : Option String) :
    (on_typing st r n).1 = st := rfl

theorem on_delivered_state (st : ServerState) (r : Option String) (i : Option Nat) :
    (on_delivered st r i).1 = st := rfl

theorem on_read_state (st : ServerState) (i : Option Nat) (r n : Option String) :
    (on_read st i r n).1.clock = st.clock ∧
    (on_read st i r n).1.online_users = st.online_users ∧
    ((on_read st i r n).1.messages = st.messages ∨
      ∃ j nm, (on_read st i r n).1.messages = updateFirst st.messages j (markRead nm)) := by
  rcases i with _ | i
  · exact ⟨rfl, rfl, Or.inl rfl⟩
  rcases r with _ | r
  · exact ⟨rfl, rfl, Or.inl rfl⟩
  rcases n with _ | n
  · exact ⟨rfl, rfl, Or.inl rfl⟩
  unfold on_read
  dsimp only
  split
  · exact ⟨rfl, rfl, Or.inl rfl⟩
  · cases hfm : findMsg st.messages (some i) with
    | none => exact ⟨rfl, rfl, Or.inl rfl⟩
    | some m => exact ⟨rfl, rfl, Or.inr ⟨i, n, rfl⟩⟩

theorem on_read_all_state (st : ServerState) (r n : Option String) :
    (on_read_all st r n).1.clock = st.clock ∧
    (on_read_all st r n).1.online_users = st.online_users ∧
    (on_read_all st r n).1.messages = st.messages.map (readAllMark r n) := by
  unfold on_read_all
  by_cases h : st.messages.any (readAllHits r n) <;> simp [h]

theorem on_delete_state (st : ServerState) (r : Option String) (i : Option Nat) :
    (on_delete st r i).1.clock = st.clock ∧
    (on_delete st r i).1.online_users = st.online_users ∧
    ((on_delete st r i).1.messages = st.messages ∨
      ∃ j, (on_delete st r i).1.messages = updateFirst st.messages j softDelete) := by
  unfold on_delete
  cases hfm : findMsg st.messages i with
  | none => exact ⟨rfl, rfl, Or.inl rfl⟩
  | some m => exact ⟨rfl, rfl, Or.inr ⟨m.msg_id, rfl⟩⟩

theorem on_edit_state (st : ServerState) (r : Option String) (i : Option Nat)
    (t : Option String) :
    (on_edit st r i t).1.clock = st.clock ∧
    (on_edit st r i t).1.online_users = st.online_users ∧
    ((on_edit st r i t).1.messages = st.messages ∨
      ∃ j, (on_edit st r i t).1.messages =
        updateFirst st.messages j (editMsg t st.clock)) := by
  unfold on_edit
  cases hfm : findMsg st.messages i with
  | none => exact ⟨rfl, rfl, Or.inl rfl⟩
  | some m => exact ⟨rfl, rfl, Or.inr ⟨m.msg_id, rfl⟩⟩

theorem on_react_state (st : ServerState) (r : Option String) (i : Option Nat)
    (em n : Option String) :
    (on_react st r i em n).1.clock = st.clock ∧
    (on_react st r i em n).1.online_users = st.online_users ∧
    ((on_react st r i em n).1.messages = st.messages ∨
      ∃ j e u, (on_react st r i em n).1.messages =
        updateFirst st.messages j (toggleReaction e u)) := by
  unfold on_react
  split
  · exact ⟨rfl, rfl, Or.inl rfl⟩
  · cases hfm : findMsg st.messages i with
    | none => exact ⟨rfl, rfl, Or.inl rfl⟩
    | some m => exact ⟨rfl, rfl, Or.inr ⟨m.msg_id, _, _, rfl⟩⟩

theorem on_pin_state (st : ServerState) (r : Option String) (i : Option Nat)
    (p : Option Bool) :
    (on_pin st r i p).1.clock = st.clock ∧
    (on_pin st r i p).1.online_users = st.online_users ∧
    ((on_pin st r i p).1.messages = st.messages ∨
      ∃ j b, (on_pin st r i p).1.messages = updateFirst st.messages j (setPin b)) := by
  unfold on_pin
  cases hfm : findMsg st.messages i with
  | none => exact ⟨rfl, rfl, Or.inl rfl⟩
  | some m => exact ⟨rfl, rfl, Or.inr ⟨m.msg_id, _, rfl⟩⟩

theorem on_disconnect_state (st : ServerState) (sid : Nat) :
    (on_disconnect st sid).1.messages = st.messages ∧
    (on_disconnect st sid).1.clock = st.clock ∧
    ((on_disconnect st sid).1.online_users = st.online_users ∨
      (∃ u, (on_disconnect st sid).1.online_users = dictPop st.online_users u) ∨
      (∃ u s', s' ≠ [] ∧
        (on_disconnect st sid).1.online_users = dictSet st.online_users u s')) := by
  unfold on_disconnect sidPop
  cases hsg : sidGet st.sid_to_user sid with
  | none => exact ⟨rfl, rfl, Or.inl rfl⟩
  | some u =>
      dsimp only
      cases hdg : dictGet st.online_users u with
      | none => exact ⟨rfl, rfl, Or.inl rfl⟩
      | some s =>
          dsimp only
          split
          · exact ⟨rfl, rfl, Or.inl rfl⟩
          · split
            · exact ⟨rfl, rfl, Or.inr (Or.inl ⟨u, rfl⟩)⟩
            · rename_i her
              refine ⟨rfl, rfl, Or.inr (Or.inr ⟨u, s.erase sid, ?_, rfl⟩)⟩
              intro hnil
              exact her (by simp [hnil])

/-! ## Step-level lemmas -/

theorem handler_clock (st : ServerState) (e : Event) :
    (step st e).1.clock = st.clock + 1 := by
  cases e with
  | auth sid res => simp [step, (on_auth_state st sid res).2.1]
  | join sid r => simp [step, on_join_state st sid r]
  | msg sid r n t => simp [step, (on_msg_state st sid r n t).2.1]
  | typing r n => simp [step, on_typing_state st r n]
  | delivered r i => simp [step, on_delivered_state st r i]
  | read i r n => simp [step, (on_read_state st i r n).1]
  | read_all r n => simp [step, (on_read_all_state st r n).1]
  | delete r i => simp [step, (on_delete_state st r i).1]
  | edit r i t => simp [step, (on_edit_state st r i t).1]
  | react r i em n => simp [step, (on_react_state st r i em n).1]
  | pin r i p => simp [step, (on_pin_state st r i p).1]
  | disconnect sid => simp [step, (on_disconnect_state st sid).2.1]

theorem OnlineInv_dictSet_setAdd (st : ServerState) (h : OnlineInv st)
    (u : String) (sids : List Nat) (sid : Nat) {p : String × List Nat}
    (hp : p ∈ dictSet st.online_users u (setAdd sids sid)) : p.2 ≠ [] := by
  rcases mem_dictSet hp with rfl | hmem
  · exact setAdd_ne_nil sids sid
  · exact h p hmem

theorem OnlineInv_step (st : ServerState) (e : Event) (h : OnlineInv st) :
    OnlineInv (step st e).1 := by
  have hstep : (step st e).1.online_users =
      (match e with
        | .auth sid resolved => on_auth st sid resolved
        | .join sid room => on_join st sid room
        | .msg sid room name text => on_msg st sid room name text
        | .typing room name => on_typing st room name
        | .delivered room i => on_delivered st room i
        | .read i room name => on_read st i room name
        | .read_all room name => on_read_all st room name
        | .delete room i => on_delete st room i
        | .edit room i text => on_edit st room i text
        | .react room i emoji name => on_react st room i emoji name
        | .pin room i pin => on_pin st room i pin
        | .disconnect sid => on_disconnect st sid).1.online_users := rfl
  intro p hp
  rw [hstep] at hp
  cases e with
  | auth sid res =>
      rcases (on_auth_state st sid res).2.2 with heq | ⟨u, sids, heq⟩
      · rw [heq] at hp; exact h p hp
      · rw [heq] at hp; exact OnlineInv_dictSet_setAdd st h u sids sid hp
  | join sid r => rw [congrArg ServerState.online_users (on_join_state st sid r)] at hp; exact h p hp
  | msg sid r n t => rw [(on_msg_state st sid r n t).2.2] at hp; exact h p hp
  | typing r n => rw [congrArg ServerState.online_users (on_typing_state st r n)] at hp; exact h p hp
  | delivered r i => rw [congrArg ServerState.online_users (on_delivered_state st r i)] at hp; exact h p hp
  | read i r n => rw [(on_read_state st i r n).2.1] at hp; exact h p hp
  | read_all r n => rw [(on_read_all_state st r n).2.1] at hp; exact h p hp
  | delete r i => rw [(on_delete_state st r i).2.1] at hp; exact h p hp
  | edit r i t => rw [(on_edit_state st r i t).2.1] at hp; exact h p hp
  | react r i em n => rw [(on_react_state st r i em n).2.1] at hp; exact h p hp
  | pin r i p' => rw [(on_pin_state st r i p').2.1] at hp; exact h p hp
  | disconnect sid =>
      rcases (on_disconnect_state st sid).2.2 with heq | ⟨u, heq⟩ | ⟨u, s', hs', heq⟩
      · rw [heq] at hp; exact h p hp
      · rw [heq] at hp; exact h p (mem_dictPop hp)
      · rw [heq] at hp
        rcases mem_dictSet hp with rfl | hmem
        · exact hs'
        · exact h p hmem

theorem OnlineInv_runFrom (es : List Event) (st : ServerState) (h : OnlineInv st) :
    OnlineInv (runFrom st es) := by
  induction es generalizing st with
  | nil => exact h
  | cons e es ih => exact ih (step st e).1 (OnlineInv_step st e h)

theorem OnlineInv_run (es : List Event) : OnlineInv (run es) :=
  OnlineInv_runFrom es initialState (by intro p hp; cases hp)

theorem mview_step (st : ServerState) (e : Event) (he : e.isEdit = false) :
    mview (step st e).1 = mview st ∨
      ∃ r, mview (step st e).1 = mview st ++ [(r, st.clock)] := by
  cases e with
  | auth sid res =>
      left
      unfold mview
      rw [show (step st (Event.auth sid res)).1.messages = (on_auth st sid res).1.messages from rfl,
        (on_auth_state st sid res).1]
  | join sid r =>
      left
      unfold mview
      rw [show (step st (Event.join sid r)).1.messages = (on_join st sid r).1.messages from rfl,
        congrArg ServerState.messages (on_join_state st sid r)]
  | msg sid r n t =>
      right
      refine ⟨r.getD "main", ?_⟩
      unfold mview
      rw [show (step st (Event.msg sid r n t)).1.messages = (on_msg st sid r n t).1.messages from rfl,
        (on_msg_state st sid r n t).1, List.map_append]
      rfl
  | typing r n =>
      left
      unfold mview
      rw [show (step st (Event.typing r n)).1.messages = (on_typing st r n).1.messages from rfl,
        congrArg ServerState.messages (on_typing_state st r n)]
  | delivered r i =>
      left
      unfold mview
      rw [show (step st (Event.delivered r i)).1.messages = (on_delivered st r i).1.messages from rfl,
        congrArg ServerState.messages (on_delivered_state st r i)]
  | read i r n =>
      left
      unfold mview
      rw [show (step st (Event.read i r n)).1.messages = (on_read st i r n).1.messages from rfl]
      rcases (on_read_state st i r n).2.2 with heq | ⟨j, nm, heq⟩
      · rw [heq]
      · rw [heq]
        exact mview_updateFirst st.messages j (markRead nm)
          (fun m => ⟨(markRead_frame nm m).2.1, (markRead_frame nm m).2.2.1⟩)
  | read_all r n =>
      left
      unfold mview
      rw [show (step st (Event.read_all r n)).1.messages = (on_read_all st r n).1.messages from rfl,
        (on_read_all_state st r n).2.2]
      exact mview_map st.messages (readAllMark r n)
        (fun m => ⟨(readAllMark_frame r n m).2.1, (readAllMark_frame r n m).2.2.1⟩)
  | delete r i =>
      left
      unfold mview
      rw [show (step st (Event.delete r i)).1.messages = (on_delete st r i).1.messages from rfl]
      rcases (on_delete_state st r i).2.2 with heq | ⟨j, heq⟩
      · rw [heq]
      · rw [heq]
        exact mview_updateFirst st.messages j softDelete
          (fun m => ⟨(softDelete_frame m).2.1, (softDelete_frame m).2.2.1⟩)
  | edit r i t => simp [Event.isEdit] at he
  | react r i em n =>
      left
      unfold mview
      rw [show (step st (Event.react r i em n)).1.messages = (on_react st r i em n).1.messages from rfl]
      rcases (on_react_state st r i em n).2.2 with heq | ⟨j, e', u', heq⟩
      · rw [heq]
      · rw [heq]
        exact mview_updateFirst st.messages j (toggleReaction e' u')
          (fun m => ⟨(toggleReaction_frame e' u' m).2.1, (toggleReaction_frame e' u' m).2.2⟩)
  | pin r i p =>
      left
      unfold mview
      rw [show (step st (Event.pin r i p)).1.messages = (on_pin st r i p).1.messages from rfl]
      rcases (on_pin_state st r i p).2.2 with heq | ⟨j, b, heq⟩
      · rw [heq]
      · rw [heq]
        exact mview_updateFirst st.messages j (setPin b)
          (fun m => ⟨(setPin_frame b m).2.1, (setPin_frame b m).2.2.1⟩)
  | disconnect sid =>
      left
      unfold mview
      rw [show (step st (Event.disconnect sid)).1.messages = (on_disconnect st sid).1.messages from rfl,
        (on_disconnect_state st sid).1]

theorem ClockInv_step (st : ServerState) (e : Event) (he : e.isEdit = false)
    (h : ClockInv st) : ClockInv (step st e).1 := by
  have hc : (step st e).1.clock = st.clock + 1 := handler_clock st e
  rcases mview_step st e he with heq | ⟨r, heq⟩
  · refine ⟨by rw [heq]; exact h.1, ?_⟩
    intro p hp
    rw [heq] at hp
    rw [hc]
    exact Nat.lt_trans (h.2 p hp) (Nat.lt_succ_self _)
  · constructor
    · rw [heq]
      rw [List.pairwise_append]
      refine ⟨h.1, List.pairwise_singleton _ _, ?_⟩
      intro a ha b hb
      rw [List.mem_singleton] at hb
      subst hb
      exact h.2 a ha
    · intro p hp
      rw [heq] at hp
      rw [hc]
      rcases List.mem_append.mp hp with hmem | hmem
      · exact Nat.lt_trans (h.2 p hmem) (Nat.lt_succ_self _)
      · rw [List.mem_singleton] at hmem
        subst hmem
        exact Nat.lt_succ_self _

theorem ClockInv_runFrom (es : List Event) (st : ServerState)
    (hne : ∀ e ∈ es, e.isEdit = false) (h : ClockInv st) :
    ClockInv (runFrom st es) := by
  induction es generalizing st with
  | nil => exact h
  | cons e es ih =>
      exact ih (step st e).1 (fun e' he' => hne e' (List.mem_cons_of_mem _ he'))
        (ClockInv_step st e (hne e (List.mem_cons_self _ _)) h)

theorem ClockInv_run (es : List Event) (hne : ∀ e ∈ es, e.isEdit = false) :
    ClockInv (run es) :=
  ClockInv_runFrom es initialState hne ⟨List.Pairwise.nil, by intro p hp; cases hp⟩

/-! ## First-match lemmas for reaction-key persistence -/

theorem find_keys_updateFirst {l : List Message} {i j : Nat} {f : Message → Message}
    {m : Message} (hf : KeepsKeys f)
    (hm : l.find? (fun x => x.msg_id == i) = some m) {e : String}
    (he : e ∈ reactionKeys m) :
    ∃ m', (updateFirst l j f).find? (fun x => x.msg_id == i) = some m' ∧
      e ∈ reactionKeys m' := by
  by_cases hij : i = j
  · subst hij
    refine ⟨f m, ?_, (hf m).2 e he⟩
    rw [find?_updateFirst_self l i f (fun x => (hf x).1), hm]
    rfl
  · refine ⟨m, ?_, he⟩
    rw [find?_updateFirst_ne l i j f (fun x => (hf x).1) hij]
    exact hm

theorem find_keys_map {l : List Message} {i : Nat} {g : Message → Message}
    (hg : KeepsKeys g) {m : Message}
    (hm : l.find? (fun x => x.msg_id == i) = some m) {e : String}
    (he : e ∈ reactionKeys m) :
    ∃ m', (l.map g).find? (fun x => x.msg_id == i) = some m' ∧
      e ∈ reactionKeys m' := by
  refine ⟨g m, ?_, (hg m).2 e he⟩
  rw [List.find?_map]
  have hcomp : ((fun x => x.msg_id == i) ∘ g) = fun x : Message => x.msg_id == i := by
    funext x
    simp [(hg x).1]
  rw [hcomp, hm]
  rfl

theorem find_append_some {l l' : List Message} {p : Message → Bool} {m : Message}
    (hm : l.find? p = some m) : (l ++ l').find? p = some m := by
  rw [List.find?_append, hm]
  rfl

/-! ## Reaction toggling -/

theorem dictGet_dictSet_ne {β : Type} (d : List (String × β)) (k k' : String) (v : β)
    (hne : k' ≠ k) : dictGet (dictSet d k v) k' = dictGet d k' := by
  have hkk : (k == k') = false := beq_eq_false_iff_ne.mpr (Ne.symm hne)
  induction d with
  | nil => simp [dictGet, dictSet, List.find?, hkk]
  | cons p t ih =>
      obtain ⟨a, b⟩ := p
      by_cases hk : a = k
      · subst hk
        simp [dictGet, dictSet, List.find?, hkk]
      · have hak : (a == k) = false := beq_eq_false_iff_ne.mpr hk
        by_cases hk' : a = k'
        · subst hk'
          simp [dictGet, dictSet, List.find?, hak]
        · have hak' : (a == k') = false := beq_eq_false_iff_ne.mpr hk'
          simp only [dictSet, hak, Bool.false_eq_true, if_false]
          simpa [dictGet, List.find?, hak'] using ih

theorem reactionSet_toggleReaction (m : Message) (e u : String) :
    reactionSet (toggleReaction e u m) e =
      if u ∈ reactionSet m e then (reactionSet m e).erase u
      else reactionSet m e ++ [u] := by
  unfold reactionSet toggleReaction
  dsimp only
  rw [dictGet_dictSet_self]
  rfl

theorem toggleReaction_other (m : Message) (e e' u : String) (hne : e' ≠ e) :
    reactionSet (toggleReaction e u m) e' = reactionSet m e' := by
  unfold reactionSet toggleReaction
  dsimp only
  rw [dictGet_dictSet_ne m.reactions e e' _ hne]

theorem isEmpty_false_of_ne {s : String} (h : s ≠ "") : s.isEmpty = false := by
  rw [Bool.eq_false_iff]
  intro hc
  exact h ((String.isEmpty_iff _).mp hc)

/-! ## The claims -/

/-- C2 counterexample: user "alice" already has an active connection (sid 1),
yet a second successful `auth` (sid 2) still emits
`presence{alice, online:true}`; the claim requires that no presence event be
emitted in this situation. -/
theorem C2_counterexample :
    dictGet (run [Event.auth 1 (some "alice")]).online_users "alice" = some [1] ∧
    Broadcast.presence "alice" true ∈
      (step (run [Event.auth 1 (some "alice")]) (Event.auth 2 (some "alice"))).2 := by
  decide

/-- C2 (amended): every successful `auth` — first connection of the user or
not — registers the connection id under the user and emits both a
`presence{user, online:true}` event and an `online_update` event; the
presence emit of `on_auth` is unconditional. -/
theorem C2_theorem (st : ServerState) (sid : Nat) (user : String) :
    sid ∈ (dictGet (on_auth st sid (some user)).1.online_users user).getD [] ∧
    (on_auth st sid (some user)).2 =
      [Broadcast.presence user true,
       Broadcast.online_update ((on_auth st sid (some user)).1.online_users.map Prod.fst)] := by
  constructor
  · show sid ∈ (dictGet (dictSet st.online_users user
      (setAdd ((dictGet st.online_users user).getD []) sid)) user).getD []
    rw [dictGet_dictSet_self]
    exact mem_setAdd_self _ _
  · rfl

/-- C4 counterexample: a `read` event for an identifier absent from the store
(id 5, empty store) leaves the store unchanged but still emits a `read`
broadcast — the emit on source line 543 sits outside the `if m:` guard — while
the claim requires that no broadcast of any kind be emitted. -/
theorem C4_counterexample :
    findMsg initialState.messages (some 5) = none ∧
    (step initialState (Event.read (some 5) (some "r") (some "u"))).1.messages =
      initialState.messages ∧
    (step initialState (Event.read (some 5) (some "r") (some "u"))).2 =
      [Broadcast.read_evt "r" 5 "u"] := by
  decide

/-- C4 (amended): for a message identifier absent from the store, the
`delete`, `edit`, `react` and `pin` handlers are silent no-ops (state
unchanged, no broadcast), but the `read` handler — while also leaving the
store unchanged — still broadcasts the `read` event. -/
theorem C4_theorem (st : ServerState) (i : Nat) (roomOpt : Option String)
    (t : Option String) (p : Option Bool) (room emoji u : String)
    (hi : findMsg st.messages (some i) = none)
    (he : emoji ≠ "") (hu : u ≠ "") (hr : room ≠ "") :
    on_delete st roomOpt (some i) = (st, []) ∧
    on_edit st roomOpt (some i) t = (st, []) ∧
    on_react st roomOpt (some i) (some emoji) (some u) = (st, []) ∧
    on_pin st roomOpt (some i) p = (st, []) ∧
    on_read st (some i) (some room) (some u) = (st, [Broadcast.read_evt room i u]) := by
  refine ⟨?_, ?_, ?_, ?_, ?_⟩
  · simp [on_delete, hi]
  · simp [on_edit, hi]
  · simp [on_react, falsyS, isEmpty_false_of_ne he, isEmpty_false_of_ne hu, hi]
  · simp [on_pin, hi]
  · simp [on_read, isEmpty_false_of_ne hr, isEmpty_false_of_ne hu, hi]

/-- C4 witness: the amended claim instantiated on the empty store, id 5. -/
theorem C4_witness :
    on_delete initialState (some "r") (some 5) = (initialState, []) ∧
    on_edit initialState (some "r") (some 5) (some "t") = (initialState, []) ∧
    on_react initialState (some "r") (some 5) (some "e") (some "u") = (initialState, []) ∧
    on_pin initialState (some "r") (some 5) (some true) = (initialState, []) ∧
    on_read initialState (some 5) (some "r") (some "u") =
      (initialState, [Broadcast.read_evt "r" 5 "u"]) :=
  C4_theorem initialState 5 (some "r") (some "t") (some true) "r" "e" "u"
    (by decide) (by decide) (by decide) (by decide)

/-- C5 counterexample: a `msg` event with *no* `room`, `name` or `msg` field
is not dropped: it creates and stores a message (in room "main", by "Anon",
with empty text) and broadcasts it, while the claim requires no mutation and
no broadcast. -/
theorem C5_counterexample :
    (step initialState (Event.msg 7 none none none)).1.messages.map
        (fun m => (m.room, m.author, m.text)) = [("main", "Anon", some "")] ∧
    (step initialState (Event.msg 7 none none none)).2 ≠ [] := by
  decide

/-- C5 (amended): only `react` (falsy emoji or name) and `read` (missing id,
room or name) drop invalid events with no mutation and no broadcast; a
`message` event with missing fields substitutes defaults (room "main",
author "Anon", empty text), stores the message and broadcasts it; an `edit`
whose new text is missing is not dropped either — it stores a missing body,
marks the message edited and broadcasts the update. -/
theorem C5_theorem (st : ServerState) (sid : Nat) (roomOpt : Option String)
    (i : Option Nat) (e n : Option String) (m : Message)
    (hen : falsyS e = true ∨ falsyS n = true)
    (hm : findMsg st.messages i = some m) :
    on_react st roomOpt i e n = (st, []) ∧
    (∀ r' n', on_read st none r' n' = (st, [])) ∧
    (∀ i' n', on_read st i' none n' = (st, [])) ∧
    (∀ i' r', on_read st i' r' none = (st, [])) ∧
    (on_msg st sid none none none).1.messages =
      st.messages ++ [mk_msg_db st "Anon" (some "") "text" none "main"] ∧
    (on_msg st sid none none none).2 =
      [Broadcast.msg_evt "main" (message_to_dict (mk_msg_db st "Anon" (some "") "text" none "main")),
       Broadcast.sent sid st.nextId] ∧
    on_edit st roomOpt i none =
      ({ st with messages := updateFirst st.messages m.msg_id (editMsg none st.clock) },
       [Broadcast.msg_update roomOpt (message_to_dict (editMsg none st.clock m))]) ∧
    (editMsg none st.clock m).text = none ∧
    (editMsg none st.clock m).edited = true := by
  refine ⟨?_, ?_, ?_, ?_, rfl, rfl, ?_, rfl, rfl⟩
  · rcases hen with h | h
    · simp [on_react, h]
    · simp [on_react, h]
  · intro r' n'
    rfl
  · intro i' n'
    cases i' <;> rfl
  · intro i' r'
    cases i' <;> cases r' <;> rfl
  · simp [on_edit, hm]

/-- C5 witness: the amended claim instantiated on a one-message store with a
missing emoji in the react payload. -/
theorem C5_witness :
    on_react wState (some "r") (some 0) none (some "u") = (wState, []) ∧
    (on_msg wState 7 none none none).2 =
      [Broadcast.msg_evt "main" (message_to_dict (mk_msg_db wState "Anon" (some "") "text" none "main")),
       Broadcast.sent 7 wState.nextId] ∧
    (editMsg none wState.clock wMsg).text = none := by
  refine ⟨?_, ?_, ?_⟩
  · exact (C5_theorem wState 7 (some "r") (some 0) none (some "u") wMsg
      (Or.inl rfl) (by decide)).1
  · exact (C5_theorem wState 7 (some "r") (some 0) none (some "u") wMsg
      (Or.inl rfl) (by decide)).2.2.2.2.2.1
  · exact (C5_theorem wState 7 (some "r") (some 0) none (some "u") wMsg
      (Or.inl rfl) (by decide)).2.2.2.2.2.2.2.1

/-- C8 (confirmed): `softDelete` sets the deleted flag, replaces the body
with the fixed tombstone "(message deleted)", and leaves every other field —
identifier, author, room, content type, attachment, timestamp, pinned flag,
reaction map, read set — unchanged; the `msg_update` broadcast carries the
tombstoned message with its reactions preserved, and rows with a different
identifier are untouched. -/
theorem C8_theorem (st : ServerState) (roomOpt : Option String) (i : Nat)
    (m : Message) (hm : findMsg st.messages (some i) = some m) :
    (on_delete st roomOpt (some i)).1.messages =
      updateFirst st.messages m.msg_id softDelete ∧
    (on_delete st roomOpt (some i)).2 =
      [Broadcast.msg_update roomOpt (message_to_dict (softDelete m))] ∧
    ((softDelete m).deleted = true ∧ (softDelete m).text = some "(message deleted)") ∧
    ((softDelete m).msg_id = m.msg_id ∧ (softDelete m).author = m.author ∧
     (softDelete m).room = m.room ∧ (softDelete m).mtype = m.mtype ∧
     (softDelete m).file = m.file ∧ (softDelete m).ts = m.ts ∧
     (softDelete m).pinned = m.pinned ∧ (softDelete m).reactions = m.reactions ∧
     (softDelete m).read_by = m.read_by) ∧
    (message_to_dict (softDelete m)).reactions = m.reactions ∧
    ∀ m' ∈ st.messages, m'.msg_id ≠ m.msg_id →
      m' ∈ (on_delete st roomOpt (some i)).1.messages := by
  have hdel : on_delete st roomOpt (some i) =
      ({ st with messages := updateFirst st.messages m.msg_id softDelete },
       [Broadcast.msg_update roomOpt (message_to_dict (softDelete m))]) := by
    simp [on_delete, hm]
  refine ⟨by rw [hdel], by rw [hdel], ⟨rfl, rfl⟩,
    ⟨rfl, rfl, rfl, rfl, rfl, rfl, rfl, rfl, rfl⟩, rfl, ?_⟩
  intro m' hm' hne
  rw [hdel]
  exact mem_updateFirst_of_ne hm' hne

/-- C8 witness: soft delete applied to a stored message carrying reactions
and read receipts. -/
theorem C8_witness :
    (on_delete wState (some "r") (some 0)).2 =
      [Broadcast.msg_update (some "r") (message_to_dict (softDelete wMsg))] ∧
    (message_to_dict (softDelete wMsg)).reactions = wMsg.reactions ∧
    (softDelete wMsg).read_by = wMsg.read_by := by
  refine ⟨?_, ?_, ?_⟩
  · exact (C8_theorem wState (some "r") 0 wMsg (by decide)).2.1
  · exact (C8_theorem wState (some "r") 0 wMsg (by decide)).2.2.2.2.1
  · exact (C8_theorem wState (some "r") 0 wMsg (by decide)).2.2.2.1.2.2.2.2.2.2.2.2

theorem readAllHits_eq (room u : String) (hu : u ≠ "") (m : Message) :
    readAllHits (some room) (some u) m = (room == m.room && !m.read_by.contains u) := by
  unfold readAllHits
  simp [falsyS, isEmpty_false_of_ne hu]

/-- C3 counterexample: in a room with two stored messages where message 0 is
already read by "u" and message 1 is not, `read_all` broadcasts a
`read_update` whose payload contains **both** room messages, while the claim
requires the payload to be exactly the (single) changed message. -/
theorem C3_counterexample :
    (let st := run [Event.msg 1 (some "r") (some "a") (some "x"),
                    Event.msg 1 (some "r") (some "a") (some "y"),
                    Event.read (some 0) (some "r") (some "u")];
     st.messages.map (fun m => (m.msg_id, m.read_by)) = [(0, ["u"]), (1, [])] ∧
     (step st (Event.read_all (some "r") (some "u"))).2 =
       [Broadcast.read_update (some "r")
         ((roomMsgs (step st (Event.read_all (some "r") (some "u"))).1.messages "r").map
           message_to_dict)] ∧
     (roomMsgs (step st (Event.read_all (some "r") (some "u"))).1.messages "r").map
         (fun m => m.msg_id) = [0, 1]) := by
  decide

/-- C3 (amended): `read_all` adds the username to the read set of every room
message where it is absent, and broadcasts a `read_update` only when at least
one message changed (no broadcast when every room message already carries the
username) — but the broadcast payload is the **entire** room message list
after the update, not only the changed messages. -/
theorem C3_theorem (st : ServerState) (room u : String) (hu : u ≠ "") :
    (∀ m ∈ (on_read_all st (some room) (some u)).1.messages,
        m.room = room → u ∈ m.read_by) ∧
    ((∀ m ∈ st.messages, m.room = room → u ∈ m.read_by) →
        on_read_all st (some room) (some u) = (st, [])) ∧
    ((∃ m ∈ st.messages, m.room = room ∧ u ∉ m.read_by) →
        (on_read_all st (some room) (some u)).2 =
          [Broadcast.read_update (some room)
            ((roomMsgs (on_read_all st (some room) (some u)).1.messages room).map
              message_to_dict)]) := by
  refine ⟨?_, ?_, ?_⟩
  · rw [(on_read_all_state st (some room) (some u)).2.2]
    intro m hmem hroom
    rcases List.mem_map.mp hmem with ⟨x, hx, rfl⟩
    have hxroom : x.room = room := by
      have := (readAllMark_frame (some room) (some u) x).2.1
      rw [this] at hroom
      exact hroom
    unfold readAllMark
    rw [readAllHits_eq room u hu]
    by_cases hc : u ∈ x.read_by
    · rw [if_neg (by simp [hxroom, hc])]
      exact hc
    · rw [if_pos (by simp [hxroom, hc])]
      exact List.mem_append.mpr (Or.inr (by simp))
  · intro hall
    have hhits : ∀ m ∈ st.messages, readAllHits (some room) (some u) m = false := by
      intro m hm
      rw [readAllHits_eq room u hu]
      by_cases hr : m.room = room
      · simp [hall m hm hr]
      · have hb : (room == m.room) = false := beq_eq_false_iff_ne.mpr (fun h => hr h.symm)
        simp [hb]
    have hany : st.messages.any (readAllHits (some room) (some u)) = false :=
      List.any_eq_false.mpr (fun m hm => by simp [hhits m hm])
    have hmap : st.messages.map (readAllMark (some room) (some u)) = st.messages := by
      have hid : ∀ m ∈ st.messages, readAllMark (some room) (some u) m = m := by
        intro m hm
        unfold readAllMark
        rw [hhits m hm]
        rfl
      rw [List.map_congr_left hid]
      exact List.map_id _
    unfold on_read_all
    rw [hany, hmap]
    rfl
  · rintro ⟨m, hm, hr, hnr⟩
    have hany : st.messages.any (readAllHits (some room) (some u)) = true :=
      List.any_eq_true.mpr ⟨m, hm, by rw [readAllHits_eq room u hu]; simp [hr, hnr]⟩
    rw [(on_read_all_state st (some room) (some u)).2.2]
    unfold on_read_all
    rw [hany]
    rfl

/-- C3 witness: the amended claim instantiated on the one-message fixture
(whose message, in room "r", is not yet read by "u"). -/
theorem C3_witness :
    (∀ m ∈ (on_read_all wState (some "r") (some "u")).1.messages,
        m.room = "r" → "u" ∈ m.read_by) ∧
    (on_read_all wState (some "r") (some "u")).2 =
      [Broadcast.read_update (some "r")
        ((roomMsgs (on_read_all wState (some "r") (some "u")).1.messages "r").map
          message_to_dict)] := by
  constructor
  · exact (C3_theorem wState "r" "u" (by decide)).1
  · exact (C3_theorem wState "r" "u" (by decide)).2.2
      ⟨wMsg, by decide, by decide, by decide⟩

/-- C6 (confirmed): `on_disconnect` emits `presence{user, online:false}`
exactly when the user's connection set was non-empty and removing the
dropped sid empties it; in particular a user holding two or more connections
never triggers the offline event when one of them drops. -/
theorem C6_theorem (st : ServerState) (sid : Nat) (u : String) (s : List Nat)
    (hsid : sidGet st.sid_to_user sid = some u)
    (hs : dictGet st.online_users u = some s) :
    (Broadcast.presence u false ∈ (on_disconnect st sid).2 ↔
      s ≠ [] ∧ s.erase sid = []) ∧
    (2 ≤ s.length → Broadcast.presence u false ∉ (on_disconnect st sid).2) := by
  unfold on_disconnect sidPop
  rw [hsid]
  dsimp only
  rw [hs]
  dsimp only
  by_cases hse : s = []
  · subst hse
    simp
  · have hne : ¬ (s.isEmpty = true) := by
      simpa [List.isEmpty_iff] using hse
    rw [if_neg hne]
    by_cases her : s.erase sid = []
    · have hre : (s.erase sid).isEmpty = true := by simp [List.isEmpty_iff, her]
      rw [if_pos hre]
      constructor
      · simp [hse, her]
      · intro h2
        exfalso
        have hlen := List.le_length_erase sid s
        rw [her] at hlen
        simp at hlen
        omega
    · have hre : ¬ ((s.erase sid).isEmpty = true) := by
        simpa [List.isEmpty_iff] using her
      rw [if_neg hre]
      constructor
      · simp [her]
      · intro _
        simp

/-- C6 witness: user "alice" with the two connections 1 and 2; dropping
connection 1 does not emit the offline event. -/
theorem C6_witness :
    (Broadcast.presence "alice" false ∈
        (on_disconnect (run [Event.auth 1 (some "alice"), Event.auth 2 (some "alice")]) 1).2 ↔
      ([1, 2] : List Nat) ≠ [] ∧ ([1, 2] : List Nat).erase 1 = []) ∧
    (2 ≤ ([1, 2] : List Nat).length →
      Broadcast.presence "alice" false ∉
        (on_disconnect (run [Event.auth 1 (some "alice"), Event.auth 2 (some "alice")]) 1).2) :=
  C6_theorem (run [Event.auth 1 (some "alice"), Event.auth 2 (some "alice")]) 1 "alice"
    [1, 2] (by decide) (by decide)

/-- C7 (confirmed): a reaction toggle adds the username to the emoji's
reaction set when absent and removes it when present; toggling twice with
the same message, emoji and username restores the reaction set's membership
exactly; and a toggle by one username never changes another username's
membership in that emoji's set. -/
theorem C7_theorem (m : Message) (e u v : String)
    (hnd : (reactionSet m e).Nodup) (hv : v ≠ u) :
    (u ∉ reactionSet m e → u ∈ reactionSet (toggleReaction e u m) e) ∧
    (u ∈ reactionSet m e → u ∉ reactionSet (toggleReaction e u m) e) ∧
    (∀ x, x ∈ reactionSet (toggleReaction e u (toggleReaction e u m)) e ↔
      x ∈ reactionSet m e) ∧
    (v ∈ reactionSet (toggleReaction e u m) e ↔ v ∈ reactionSet m e) := by
  have h1 := reactionSet_toggleReaction m e u
  have h2 := reactionSet_toggleReaction (toggleReaction e u m) e u
  refine ⟨?_, ?_, ?_, ?_⟩
  · intro hu
    rw [h1, if_neg hu]
    exact List.mem_append.mpr (Or.inr (by simp))
  · intro hu
    rw [h1, if_pos hu]
    exact hnd.not_mem_erase
  · intro x
    by_cases hu : u ∈ reactionSet m e
    · rw [h1, if_pos hu] at h2
      have hnm : u ∉ (reactionSet m e).erase u := hnd.not_mem_erase
      rw [h2, if_neg hnm]
      by_cases hx : x = u
      · subst hx
        simp [hu]
      · rw [List.mem_append]
        simp only [List.mem_singleton, hx, or_false]
        exact List.mem_erase_of_ne hx
    · rw [h1, if_neg hu] at h2
      have hin : u ∈ reactionSet m e ++ [u] := List.mem_append.mpr (Or.inr (by simp))
      rw [h2, if_pos hin, List.erase_append_right _ hu]
      simp
  · by_cases hu : u ∈ reactionSet m e
    · rw [h1, if_pos hu]
      exact List.mem_erase_of_ne hv
    · rw [h1, if_neg hu]
      rw [List.mem_append]
      simp [hv]

/-- C7 witness: the toggle laws instantiated on the fixture message, whose
reaction set for "e" is the duplicate-free list containing "u" and "v". -/
theorem C7_witness :
    ("u" ∈ reactionSet wMsg "e" → "u" ∉ reactionSet (toggleReaction "e" "u" wMsg) "e") ∧
    ("w" ∈ reactionSet (toggleReaction "e" "u" (toggleReaction "e" "u" wMsg)) "e" ↔
      "w" ∈ reactionSet wMsg "e") ∧
    ("w" ∈ reactionSet (toggleReaction "e" "u" wMsg) "e" ↔ "w" ∈ reactionSet wMsg "e") := by
  refine ⟨?_, ?_, ?_⟩
  · exact (C7_theorem wMsg "e" "u" "w" (by decide) (by decide)).2.1
  · exact (C7_theorem wMsg "e" "u" "w" (by decide) (by decide)).2.2.1 "w"
  · exact (C7_theorem wMsg "e" "u" "w" (by decide) (by decide)).2.2.2

/-- C9 (confirmed): in every state reachable from the empty registry, each
username key of `online_users` carries a non-empty connection-id set, and
`on_disconnect` removes the username key exactly when it removes the user's
last connection id. -/
theorem C9_theorem (es : List Event) (sid : Nat) (u : String) (s : List Nat)
    (hsid : sidGet (run es).sid_to_user sid = some u)
    (hs : dictGet (run es).online_users u = some s) :
    OnlineInv (run es) ∧
    s ≠ [] ∧
    (dictGet (on_disconnect (run es) sid).1.online_users u = none ↔
      s.erase sid = []) := by
  have hinv : OnlineInv (run es) := OnlineInv_run es
  have hsne : s ≠ [] := by
    unfold dictGet at hs
    rcases hfind : (run es).online_users.find? (fun p => p.1 == u) with _ | q
    · rw [hfind] at hs
      cases hs
    · rw [hfind] at hs
      have hq : q ∈ (run es).online_users := List.mem_of_find?_eq_some hfind
      have hq2 : q.2 = s := by simpa using hs
      rw [← hq2]
      exact hinv q hq
  refine ⟨hinv, hsne, ?_⟩
  unfold on_disconnect sidPop
  rw [hsid]
  dsimp only
  rw [hs]
  dsimp only
  rw [if_neg (by simpa [List.isEmpty_iff] using hsne)]
  by_cases her : s.erase sid = []
  · rw [if_pos (by simp [List.isEmpty_iff, her])]
    dsimp only
    rw [dictGet_dictPop_self]
    simp [her]
  · rw [if_neg (by simpa [List.isEmpty_iff] using her)]
    dsimp only
    rw [dictGet_dictSet_self]
    simp [her]

/-- C9 witness: the invariant and the removal law instantiated after a single
authentication of "alice" on connection 1. -/
theorem C9_witness :
    OnlineInv (run [Event.auth 1 (some "alice")]) ∧
    ([1] : List Nat) ≠ [] ∧
    (dictGet (on_disconnect (run [Event.auth 1 (some "alice")]) 1).1.online_users
        "alice" = none ↔ ([1] : List Nat).erase 1 = []) :=
  C9_theorem [Event.auth 1 (some "alice")] 1 "alice" [1] (by decide) (by decide)

/-- C10 (confirmed): once an emoji key is present in a stored message's
reaction map, every event leaves the key in place (the message, looked up by
its identifier, still carries it afterwards); toggling off the last remaining
username leaves the emoji mapped to the empty list rather than deleting the
key; and `message_to_dict` passes the reaction map — empty entries included —
through to every broadcast and history payload. -/
theorem C10_theorem (st : ServerState) (ev : Event) (i : Nat) (e : String)
    (m : Message) (hm : st.messages.find? (fun x => x.msg_id == i) = some m)
    (he : e ∈ reactionKeys m) :
    (∃ m', (step st ev).1.messages.find? (fun x => x.msg_id == i) = some m' ∧
      e ∈ reactionKeys m') ∧
    (∀ u, dictGet m.reactions e = some [u] →
      dictGet (toggleReaction e u m).reactions e = some []) ∧
    (message_to_dict m).reactions = m.reactions := by
  refine ⟨?_, ?_, rfl⟩
  · have main : ∀ ms : List Message,
        (ms = st.messages ∨
         (∃ msg, ms = st.messages ++ [msg]) ∨
         (∃ j f, KeepsKeys f ∧ ms = updateFirst st.messages j f) ∨
         (∃ g, KeepsKeys g ∧ ms = st.messages.map g)) →
        ∃ m', ms.find? (fun x => x.msg_id == i) = some m' ∧ e ∈ reactionKeys m' := by
      rintro ms (rfl | ⟨msg, rfl⟩ | ⟨j, f, hf, rfl⟩ | ⟨g, hg, rfl⟩)
      · exact ⟨m, hm, he⟩
      · exact ⟨m, find_append_some hm, he⟩
      · exact find_keys_updateFirst hf hm he
      · exact find_keys_map hg hm he
    apply main
    cases ev with
    | auth sid res => exact Or.inl (on_auth_state st sid res).1
    | join sid r =>
        have h : (on_join st sid r).1.messages = st.messages :=
          congrArg ServerState.messages (on_join_state st sid r)
        exact Or.inl h
    | msg sid r n t => exact Or.inr (Or.inl ⟨_, (on_msg_state st sid r n t).1⟩)
    | typing r n =>
        have h : (on_typing st r n).1.messages = st.messages :=
          congrArg ServerState.messages (on_typing_state st r n)
        exact Or.inl h
    | delivered r i' =>
        have h : (on_delivered st r i').1.messages = st.messages :=
          congrArg ServerState.messages (on_delivered_state st r i')
        exact Or.inl h
    | read i' r n =>
        rcases (on_read_state st i' r n).2.2 with heq | ⟨j, nm, heq⟩
        · exact Or.inl heq
        · exact Or.inr (Or.inr (Or.inl ⟨j, markRead nm, keepsKeys_markRead nm, heq⟩))
    | read_all r n =>
        exact Or.inr (Or.inr (Or.inr ⟨readAllMark r n, keepsKeys_readAllMark r n,
          (on_read_all_state st r n).2.2⟩))
    | delete r i' =>
        rcases (on_delete_state st r i').2.2 with heq | ⟨j, heq⟩
        · exact Or.inl heq
        · exact Or.inr (Or.inr (Or.inl ⟨j, softDelete, keepsKeys_softDelete, heq⟩))
    | edit r i' t =>
        rcases (on_edit_state st r i' t).2.2 with heq | ⟨j, heq⟩
        · exact Or.inl heq
        · exact Or.inr (Or.inr (Or.inl ⟨j, editMsg t st.clock,
            keepsKeys_editMsg t st.clock, heq⟩))
    | react r i' em n =>
        rcases (on_react_state st r i' em n).2.2 with heq | ⟨j, e', u', heq⟩
        · exact Or.inl heq
        · exact Or.inr (Or.inr (Or.inl ⟨j, toggleReaction e' u',
            keepsKeys_toggleReaction e' u', heq⟩))
    | pin r i' p =>
        rcases (on_pin_state st r i' p).2.2 with heq | ⟨j, b, heq⟩
        · exact Or.inl heq
        · exact Or.inr (Or.inr (Or.inl ⟨j, setPin b, keepsKeys_setPin b, heq⟩))
    | disconnect sid => exact Or.inl (on_disconnect_state st sid).1
  · intro u hu
    unfold toggleReaction
    dsimp only
    rw [dictGet_dictSet_self]
    simp [hu]

/-- C10 witness: the key-persistence law across a delete event, and the
empty-entry law for toggling off the last reacting username. -/
theorem C10_witness :
    (∃ m', (step wState1 (Event.delete (some "r") (some 0))).1.messages.find?
        (fun x => x.msg_id == 0) = some m' ∧ "e" ∈ reactionKeys m') ∧
    dictGet (toggleReaction "e" "u" wMsg1).reactions "e" = some [] := by
  constructor
  · exact (C10_theorem wState1 (Event.delete (some "r") (some 0)) 0 "e" wMsg1
      (by decide) (by decide)).1
  · exact (C10_theorem wState1 (Event.delete (some "r") (some 0)) 0 "e" wMsg1
      (by decide) (by decide)).2.1 "u" (by decide)

set_option maxRecDepth 10000 in
/-- C1 counterexample: two failures of the claim on concrete stores.  First,
after an edit of the first of two stored messages, the history reply
following a join is ordered by the refreshed timestamp (edited message last),
not by creation order.  Second, with 501 stored messages the query
`order_by(ts.asc()).limit(500)` returns the **oldest** 500, not the most
recent 500. -/
theorem C1_counterexample :
    (let st := run [Event.msg 1 (some "r") (some "a") (some "x"),
                    Event.msg 1 (some "r") (some "a") (some "y"),
                    Event.edit (some "r") (some 0) (some "z")];
     (step st (Event.join 1 (some "r"))).2 ≠
       [Broadcast.history 1 ((specHistory st.messages "r").map message_to_dict)]) ∧
    (let msgs := (List.range 501).map (fun k =>
        { msg_id := k, room := "main", author := "a", text := some "t", mtype := "text", file := none, ts := k, edited := false, deleted := false, reactions := [], pinned := false, read_by := [] : Message });
     historyQuery msgs "main" ≠ specHistory msgs "main") := by
  constructor
  · decide
  · decide

/-- C1 (amended): for a join reaching a state in which no edit event has
occurred, the history reply is exactly the room's stored messages in creation
order capped to the **oldest** 500 (the first 500 in ascending-timestamp
order); in general the reply is ordered by the stored timestamp, which an
edit refreshes, and the 500-message cap keeps the oldest, not the most
recent, messages. -/
theorem C1_theorem (es : List Event) (room : String) (sid : Nat)
    (hne : ∀ e ∈ es, e.isEdit = false) :
    (step (run es) (Event.join sid (some room))).2 =
      [Broadcast.history sid
        (((roomMsgs (run es).messages room).take 500).map message_to_dict)] := by
  have hinv : ClockInv (run es) := ClockInv_run es hne
  have hpw : (run es).messages.Pairwise (fun a b => a.ts < b.ts) := by
    have hmv := hinv.1
    unfold mview at hmv
    rw [List.pairwise_map] at hmv
    exact hmv
  have hfil : (roomMsgs (run es).messages room).Pairwise (fun a b => a.ts < b.ts) :=
    List.Pairwise.sublist (List.filter_sublist _) hpw
  have hsorted : List.Sorted (fun a b : Message => a.ts ≤ b.ts)
      (roomMsgs (run es).messages room) :=
    hfil.imp (fun h => Nat.le_of_lt h)
  have hq : historyQuery (run es).messages room =
      (roomMsgs (run es).messages room).take 500 := by
    unfold historyQuery sortByTs
    rw [List.Sorted.insertionSort_eq hsorted]
  simp [step, on_join, hq]

/-- C1 witness: the amended claim instantiated on an edit-free run holding
one message. -/
theorem C1_witness :
    (∀ e ∈ [Event.msg 1 (some "r") (some "a") (some "x")], Event.isEdit e = false) ∧
    (step (run [Event.msg 1 (some "r") (some "a") (some "x")]) (Event.join 2 (some "r"))).2 =
      [Broadcast.history 2
        (((roomMsgs (run [Event.msg 1 (some "r") (some "a") (some "x")]).messages "r").take 500).map
          message_to_dict)] :=
  ⟨by decide, C1_theorem [Event.msg 1 (some "r") (some "a") (some "x")] "r" 2 (by decide)⟩

end Whatsapplite
